import Mathlib

/-!
Verification of the NTFScout mint pipeline core.

Shallow embedding of the Go sources:
* `internal/helpers/processData.go` — candidate selection (`ProcessData`);
* `internal/helpers/transaction.go` — submission (`Transaction`, modelled as
  the action trace `TransactionRun`);
* `internal/helpers` broadcast loop (`BroadCast`, modelled as `BroadCastRun`);
* `internal/worker/minter.go` — submission loop (`Minter`, modelled as
  `MinterRun`);
* `internal/web3/wallet.go` — `CreateTransaction` / `SendTransaction` shapes.

Go machine integers: the binary runs on linux/amd64 (Dockerfile `FROM
golang:1.22`), so `int` is 64 bits and `int(^uint(0) >> 1) = 2^63 - 1`.
Integers are embedded as `Int` with the int64 range made explicit where the
code depends on it (`strconv.Atoi` range-checks its result).

External collaborators (MongoDB, the eth RPC client, `common.HexToAddress`)
are modelled as oracles in an environment record, or as uninterpreted
injective wrappers, exactly at the call boundaries the Go code uses.
-/

namespace NTFScout

/-- `api.Collection` (internal/api). -/
structure Collection where
  contract : String
  deployer : String
  name : String
  totalMints : String
  isReported : List String
  deriving DecidableEq, Repr

/-- `api.Transaction` (internal/api): one mint candidate. -/
structure ApiTransaction where
  To : String
  callData : String
  nftCount : String
  ethValue : String
  deriving DecidableEq, Repr

/-- Go zero value of `api.Transaction` (`var minTransaction api.Transaction`). -/
def zeroApiTransaction : ApiTransaction :=
  { To := "", callData := "", nftCount := "", ethValue := "" }

/-- `helpers.ProcessedData` (internal/helpers/processData.go). -/
structure ProcessedData where
  name : String
  contract : String
  quantity : Int
  ethValue : String
  To : String
  callData : String
  hash : String
  deriving DecidableEq, Repr

/-- Largest Go `int` on a 64-bit platform: `int(^uint(0) >> 1)`,
the sentinel initial value of `minNftCount` in `ProcessData`. -/
def maxIntGo : Int := 2 ^ 63 - 1

/-- Smallest Go `int` on a 64-bit platform. -/
def minIntGo : Int := -(2 ^ 63)

/-- Decimal value of a digit run; `none` on an empty run or a non-digit
(`strconv.ParseUint` body, base 10). -/
def digitsVal : List Char → Option Nat
  | [] => none
  | cs => cs.foldl
      (fun acc c =>
        match acc with
        | none => none
        | some n => if c.isDigit then some (n * 10 + (c.toNat - 48)) else none)
      (some 0)

/-- `strconv.Atoi` on a 64-bit platform: optional sign, decimal digits,
result range-checked to the Go `int` range; `none` stands for a non-nil
error (`Atoi` also errors on overflow, returning a clamped value the Go
callers here never use). -/
def Atoi (s : String) : Option Int :=
  let cs := s.toList
  let signed : Bool × List Char :=
    match cs with
    | '-' :: rest => (true, rest)
    | '+' :: rest => (false, rest)
    | _ => (false, cs)
  match digitsVal signed.2 with
  | none => none
  | some n =>
    let v : Int := if signed.1 then -(n : Int) else (n : Int)
    if minIntGo ≤ v ∧ v ≤ maxIntGo then some v else none

/-- The selection scan of `ProcessData` (processData.go lines 28-37):
fold over the candidates keeping the strictly-smallest parsed `NftCount`
seen so far, aborting on the first parse failure. -/
def scanLoop : List ApiTransaction → ApiTransaction → Int →
    Except String (ApiTransaction × Int)
  | [], minTx, minCount => .ok (minTx, minCount)
  | tx :: rest, minTx, minCount =>
    match Atoi tx.nftCount with
    | none => .error "invalid NFT count"
    | some n =>
      if n < minCount then scanLoop rest tx n else scanLoop rest minTx minCount

/-- `helpers.ProcessData` (processData.go lines 20-52).  Error strings
are the `fmt.Errorf` format tags ("no items provided",
"invalid NFT count"); the wrapped cause is dropped. -/
def ProcessData (collection : Collection) (txs : List ApiTransaction) :
    Except String ProcessedData :=
  if txs.length = 0 then .error "no items provided"
  else
    match scanLoop txs zeroApiTransaction maxIntGo with
    | .error e => .error e
    | .ok (minTx, _) =>
      match Atoi minTx.nftCount with
      | none => .error "invalid NFT count"
      | some n =>
        .ok { name := collection.name
              contract := collection.contract
              quantity := n
              To := minTx.To
              callData := minTx.callData
              ethValue := minTx.ethValue
              hash := "" }

/-- `common.Address`.  The go-ethereum hex decoding is an external
collaborator; the address is modelled as the hex string it was converted
from, which is all the pipeline ever supplies or inspects. -/
structure Address where
  hex : String
  deriving DecidableEq, Repr

/-- `common.HexToAddress` (call site transaction.go line 29), modelled as
the injective wrapper into `Address`. -/
def hexToAddress (s : String) : Address := ⟨s⟩

/-- UTF-8 encoding of one character (Go strings are UTF-8; `[]byte(s)`
yields the raw encoding bytes). -/
def utf8EncodeChar (c : Char) : List Nat :=
  let n := c.toNat
  if n < 0x80 then [n]
  else if n < 0x800 then
    [0xC0 + n / 64, 0x80 + n % 64]
  else if n < 0x10000 then
    [0xE0 + n / 4096, 0x80 + n / 64 % 64, 0x80 + n % 64]
  else
    [0xF0 + n / 262144, 0x80 + n / 4096 % 64, 0x80 + n / 64 % 64, 0x80 + n % 64]

/-- Go `[]byte(s)` (call site transaction.go line 29): the raw UTF-8
bytes of the string, with no hex decoding. -/
def strToBytes (s : String) : List Nat :=
  (s.toList.map utf8EncodeChar).flatten

/-- The transaction value built by `types.NewTransaction(nonce, to, value,
w.gasLimit, gasPrice, data)` in `Wallet.CreateTransaction`
(internal/web3/wallet.go lines 74-82). -/
structure EthTx where
  nonce : Nat
  To : Address
  value : Int
  gasLimit : Nat
  gasPrice : Int
  data : List Nat
  deriving DecidableEq, Repr

/-- `db.TransactionData` (the TransactionRecord written by
`InsertTransactionToDb`). -/
structure TxRecord where
  name : String
  address : String
  quantity : Int
  transactionHash : String
  deriving DecidableEq, Repr

/-- Outcomes of the external calls one run of `helpers.Transaction` can
make, in call order.  `Except Unit` models a Go `(value, error)` pair at
the boundary (`.error ()` = non-nil error). -/
structure SubmitEnv where
  /-- result of `persister.GetTransactionsFromDb(ctx, data.Contract)`:
  `true` iff a TransactionRecord for the address exists. -/
  getFromDb : Except Unit Bool
  /-- result of `wallet.EstimateGasPrice(ctx)`. -/
  gasPrice : Except Unit Int
  /-- result of `w.client.PendingNonceAt` inside `CreateTransaction`. -/
  pendingNonce : Except Unit Nat
  /-- result of `wallet.SendTransaction(ctx, tx)`: the broadcast hash. -/
  send : EthTx → Except Unit String
  /-- result of `persister.InsertTransactionToDb(ctx, txData)`. -/
  insert : TxRecord → Except Unit Unit

/-- Observable actions of one run of `helpers.Transaction`: each external
call and each log write, in program order.  `errorRecord` is a write to
the error audit collection (`db.LogError` / the ErrorRecord channel); the
constructor exists so its absence from a trace is expressible. -/
inductive Action where
  | dedupCall (address : String)
  | logInfo (msg : String)
  | estimateCall
  | nonceCall
  | buildTx (tx : EthTx)
  | sendCall (tx : EthTx)
  | insertCall (rec : TxRecord)
  | errorRecord (kind : String)
  deriving DecidableEq, Repr

/-- `helpers.Transaction` (internal/helpers/transaction.go lines 13-52) as
the trace of actions it performs against the environment `env`;
`gasLimit` is the wallet's caller-supplied fixed `gasLimit` field.  Every
`err != nil` branch in the Go code is a bare `return`: the trace simply
stops there. -/
def TransactionRun (env : SubmitEnv) (gasLimit : Nat) (data : ProcessedData) :
    List Action :=
  let t0 := [Action.dedupCall data.contract]
  match env.getFromDb with
  | .error _ => t0
  | .ok true => t0 ++ [Action.logInfo "Collection already minted"]
  | .ok false =>
    let t1 := t0 ++ [Action.estimateCall]
    match env.gasPrice with
    | .error _ => t1
    | .ok gp =>
      let t2 := t1 ++ [Action.nonceCall]
      match env.pendingNonce with
      | .error _ => t2
      | .ok nonce =>
        let tx : EthTx :=
          { nonce := nonce
            To := hexToAddress data.To
            value := 0
            gasLimit := gasLimit
            gasPrice := gp
            data := strToBytes data.callData }
        let t3 := t2 ++ [Action.buildTx tx, Action.sendCall tx]
        match env.send tx with
        | .error _ => t3
        | .ok hash =>
          t3 ++ [Action.insertCall
            { name := data.name
              address := data.contract
              quantity := data.quantity
              transactionHash := hash }]

/-- `worker.Minter` (internal/worker/minter.go lines 11-21), restricted to
the run that receives `items` from the channel and is then cancelled: for
each received item it calls `helpers.Transaction` and loops regardless of
that call's outcome. -/
def MinterRun (envs : ProcessedData → SubmitEnv) (gasLimit : Nat)
    (items : List ProcessedData) : List (ProcessedData × List Action) :=
  items.map fun d => (d, TransactionRun (envs d) gasLimit d)

/-- Observable events of one `helpers.BroadCast` run: a `ProcessedData`
sent into the tx channel, or a `log.Println` line. -/
inductive BEvent where
  | emit (d : ProcessedData)
  | logMsg (msg : String)
  deriving DecidableEq, Repr

/-- `helpers.BroadCast` over a batch, restricted to the executions in
which cancellation never fires and every channel send completes (the
cancellation branches of its two `select`s are not taken); `fetch` is the
oracle for `api.GetTransaction(ctx, col)`. -/
def BroadCastRun (fetch : Collection → Except Unit (List ApiTransaction)) :
    List Collection → List BEvent
  | [] => []
  | col :: rest =>
    match fetch col with
    | .error _ =>
      BEvent.logMsg "Error getting transaction" :: BroadCastRun fetch rest
    | .ok txs =>
      match ProcessData col txs with
      | .error _ =>
        BEvent.logMsg "Error processing transaction data" :: BroadCastRun fetch rest
      | .ok d => BEvent.emit d :: BroadCastRun fetch rest

/-- The selection scan of `ProcessData` on pre-parsed (candidate, count)
pairs: keep the accumulator unless the next count is strictly smaller
(the `if nftCount < minNftCount` update of processData.go line 33). -/
def pick : List (ApiTransaction × Int) → ApiTransaction × Int → ApiTransaction × Int
  | [], acc => acc
  | p :: rest, acc => if p.2 < acc.2 then pick rest p else pick rest acc

/-! Concrete fixtures used by witnesses and counterexamples. -/

/-- A concrete collection. -/
def col0 : Collection :=
  { contract := "0xc0", deployer := "0xd0", name := "demo"
    totalMints := "5", isReported := [] }

/-- A concrete selected item. -/
def data0 : ProcessedData :=
  { name := "demo", contract := "0xc0", quantity := 1, ethValue := "0"
    To := "0xt0", callData := "0x", hash := "" }

/-- A candidate whose `nftCount` is the largest value `strconv.Atoi`
accepts on a 64-bit platform. -/
def txMax : ApiTransaction :=
  { To := "0xa", callData := "0xp", nftCount := "9223372036854775807"
    ethValue := "1" }

/-- A second all-max candidate (distinct destination). -/
def txMax2 : ApiTransaction :=
  { To := "0xb", callData := "0xq", nftCount := "9223372036854775807"
    ethValue := "2" }

/-- A candidate with `nftCount` "3". -/
def txThree : ApiTransaction :=
  { To := "0xa3", callData := "0xp3", nftCount := "3", ethValue := "3" }

/-- A candidate with `nftCount` "1". -/
def txOne : ApiTransaction :=
  { To := "0xb1", callData := "0xq1", nftCount := "1", ethValue := "1" }

/-- A second candidate with `nftCount` "1" (a tie with `txOne`). -/
def txOneBis : ApiTransaction :=
  { To := "0xe1", callData := "0xr1", nftCount := "1", ethValue := "4" }

/-- A candidate whose `nftCount` does not parse. -/
def txBad : ApiTransaction :=
  { To := "0xbad", callData := "0xs", nftCount := "x", ethValue := "5" }

/-- A broadcast oracle that always succeeds with a fixed hash. -/
def okSend : EthTx → Except Unit String := fun _ => .ok "0xhash"

/-- A persistence oracle that always succeeds. -/
def okInsert : TxRecord → Except Unit Unit := fun _ => .ok ()

/-- Environment: the dedup lookup finds an existing record. -/
def envHit : SubmitEnv :=
  { getFromDb := .ok true, gasPrice := .ok 7, pendingNonce := .ok 3
    send := okSend, insert := okInsert }

/-- Environment: the dedup lookup itself errors. -/
def envLookupErr : SubmitEnv :=
  { getFromDb := .error (), gasPrice := .ok 7, pendingNonce := .ok 3
    send := okSend, insert := okInsert }

/-- Environment: dedup miss, then the gas estimate fails. -/
def envEstimateErr : SubmitEnv :=
  { getFromDb := .ok false, gasPrice := .error (), pendingNonce := .ok 3
    send := okSend, insert := okInsert }

/-- Environment: every external call succeeds. -/
def envAllOk : SubmitEnv :=
  { getFromDb := .ok false, gasPrice := .ok 7, pendingNonce := .ok 3
    send := okSend, insert := okInsert }

/-- A second selected item on a different contract. -/
def data1 : ProcessedData :=
  { name := "demo2", contract := "0xc1", quantity := 2, ethValue := "0"
    To := "0xt1", callData := "0y", hash := "" }

/-- Per-item environments: the item on contract "0xc0" hits a failing gas
estimate, every other item sees fully healthy collaborators. -/
def envsMix : ProcessedData → SubmitEnv := fun d =>
  if d.contract = "0xc0" then envEstimateErr else envAllOk

/-! Helper lemmas shared between claims. -/

/-- Shape of the trace on a dedup hit. -/
theorem transactionRun_of_hit (env : SubmitEnv) (g : Nat) (d : ProcessedData)
    (h : env.getFromDb = .ok true) :
    TransactionRun env g d =
      [Action.dedupCall d.contract, Action.logInfo "Collection already minted"] := by
  unfold TransactionRun
  rw [h]
  rfl

/-- Shape of the trace when the dedup lookup errors. -/
theorem transactionRun_of_lookupErr (env : SubmitEnv) (g : Nat) (d : ProcessedData)
    (h : env.getFromDb = .error ()) :
    TransactionRun env g d = [Action.dedupCall d.contract] := by
  unfold TransactionRun
  rw [h]

/-- After a dedup miss, a successful estimate and a successful nonce
fetch, the built transaction carries the item's fields, value 0, the
estimated gas price and the wallet gas limit. -/
theorem buildTx_mem_trace (env : SubmitEnv) (g : Nat) (d : ProcessedData)
    (gp : Int) (nonce : Nat)
    (h1 : env.getFromDb = .ok false) (h2 : env.gasPrice = .ok gp)
    (h3 : env.pendingNonce = .ok nonce) :
    Action.buildTx
      { nonce := nonce, To := hexToAddress d.To, value := 0
        gasLimit := g, gasPrice := gp, data := strToBytes d.callData }
      ∈ TransactionRun env g d := by
  unfold TransactionRun
  rw [h1, h2, h3]
  cases h4 : env.send
      { nonce := nonce, To := hexToAddress d.To, value := 0
        gasLimit := g, gasPrice := gp, data := strToBytes d.callData } <;>
    simp [h4]

/-! ## The claims -/

/-- C1: for a SelectedItem whose contractAddress already has a
TransactionRecord (`GetTransactionsFromDb` returns `true` without error),
`Transaction` logs the duplicate skip and stops: it performs no gas
estimate, no nonce fetch, no transaction build, no broadcast, writes no
TransactionRecord, and records no error. -/
theorem dedup_hit_skips_submission (env : SubmitEnv) (g : Nat)
    (d : ProcessedData) (h : env.getFromDb = .ok true) :
    TransactionRun env g d =
      [Action.dedupCall d.contract, Action.logInfo "Collection already minted"] ∧
    Action.estimateCall ∉ TransactionRun env g d ∧
    Action.nonceCall ∉ TransactionRun env g d ∧
    (∀ tx, Action.buildTx tx ∉ TransactionRun env g d) ∧
    (∀ tx, Action.sendCall tx ∉ TransactionRun env g d) ∧
    (∀ r, Action.insertCall r ∉ TransactionRun env g d) ∧
    (∀ k, Action.errorRecord k ∉ TransactionRun env g d) := by
  have he := transactionRun_of_hit env g d h
  refine ⟨he, ?_, ?_, fun tx => ?_, fun tx => ?_, fun r => ?_, fun k => ?_⟩ <;>
    simp [he]

/-- C1 witness: the theorem at a concrete environment and item. -/
theorem dedup_hit_skips_submission_witness :
    envHit.getFromDb = .ok true ∧
    (TransactionRun envHit 100 data0 =
      [Action.dedupCall "0xc0", Action.logInfo "Collection already minted"] ∧
     Action.estimateCall ∉ TransactionRun envHit 100 data0 ∧
     Action.nonceCall ∉ TransactionRun envHit 100 data0 ∧
     (∀ tx, Action.buildTx tx ∉ TransactionRun envHit 100 data0) ∧
     (∀ tx, Action.sendCall tx ∉ TransactionRun envHit 100 data0) ∧
     (∀ r, Action.insertCall r ∉ TransactionRun envHit 100 data0) ∧
     (∀ k, Action.errorRecord k ∉ TransactionRun envHit 100 data0)) :=
  ⟨rfl, dedup_hit_skips_submission envHit 100 data0 rfl⟩

/-- C8: if the idempotency lookup itself errors, `Transaction` returns at
once: no gas estimate, no build, no broadcast, no TransactionRecord
write, no error record, and not even the duplicate-skip log line. -/
theorem lookup_error_fails_closed (env : SubmitEnv) (g : Nat)
    (d : ProcessedData) (h : env.getFromDb = .error ()) :
    TransactionRun env g d = [Action.dedupCall d.contract] ∧
    Action.estimateCall ∉ TransactionRun env g d ∧
    (∀ tx, Action.buildTx tx ∉ TransactionRun env g d) ∧
    (∀ tx, Action.sendCall tx ∉ TransactionRun env g d) ∧
    (∀ r, Action.insertCall r ∉ TransactionRun env g d) ∧
    (∀ k, Action.errorRecord k ∉ TransactionRun env g d) ∧
    (∀ m, Action.logInfo m ∉ TransactionRun env g d) := by
  have he := transactionRun_of_lookupErr env g d h
  refine ⟨he, ?_, fun tx => ?_, fun tx => ?_, fun r => ?_, fun k => ?_,
    fun m => ?_⟩ <;> simp [he]

/-- C8 witness: the theorem at a concrete environment and item. -/
theorem lookup_error_fails_closed_witness :
    envLookupErr.getFromDb = .error () ∧
    (TransactionRun envLookupErr 100 data0 = [Action.dedupCall "0xc0"] ∧
     Action.estimateCall ∉ TransactionRun envLookupErr 100 data0 ∧
     (∀ tx, Action.buildTx tx ∉ TransactionRun envLookupErr 100 data0) ∧
     (∀ tx, Action.sendCall tx ∉ TransactionRun envLookupErr 100 data0) ∧
     (∀ r, Action.insertCall r ∉ TransactionRun envLookupErr 100 data0) ∧
     (∀ k, Action.errorRecord k ∉ TransactionRun envLookupErr 100 data0) ∧
     (∀ m, Action.logInfo m ∉ TransactionRun envLookupErr 100 data0)) :=
  ⟨rfl, lookup_error_fails_closed envLookupErr 100 data0 rfl⟩

/-- C6: after the idempotency check passes and the gas estimate succeeds,
the built transaction is addressed to the item's destination, carries
zero native value, uses the item's payload bytes as call data, the
estimated gas price, and the caller-supplied fixed gas limit. -/
theorem built_transaction_fields (env : SubmitEnv) (g : Nat)
    (d : ProcessedData) (gp : Int) (nonce : Nat)
    (h1 : env.getFromDb = .ok false) (h2 : env.gasPrice = .ok gp)
    (h3 : env.pendingNonce = .ok nonce) :
    Action.buildTx
      { nonce := nonce, To := hexToAddress d.To, value := 0
        gasLimit := g, gasPrice := gp, data := strToBytes d.callData }
      ∈ TransactionRun env g d :=
  buildTx_mem_trace env g d gp nonce h1 h2 h3

/-- C6 witness: the theorem at a concrete environment and item. -/
theorem built_transaction_fields_witness :
    envAllOk.getFromDb = .ok false ∧ envAllOk.gasPrice = .ok 7 ∧
    envAllOk.pendingNonce = .ok 3 ∧
    Action.buildTx
      { nonce := 3, To := hexToAddress "0xt0", value := 0
        gasLimit := 100, gasPrice := 7, data := strToBytes "0x" }
      ∈ TransactionRun envAllOk 100 data0 :=
  ⟨rfl, rfl, rfl, built_transaction_fields envAllOk 100 data0 7 3 rfl rfl rfl⟩

/-- C10: the call data placed in the built transaction is the raw UTF-8
byte sequence of the `CallData` string (`[]byte(data.CallData)`), not the
hex bytes it denotes: the payload string "0x" yields exactly the two
bytes 0x30 0x78. -/
theorem calldata_raw_bytes (env : SubmitEnv) (g : Nat) (d : ProcessedData)
    (gp : Int) (nonce : Nat)
    (h1 : env.getFromDb = .ok false) (h2 : env.gasPrice = .ok gp)
    (h3 : env.pendingNonce = .ok nonce) (hcd : d.callData = "0x") :
    strToBytes d.callData = [0x30, 0x78] ∧
    Action.buildTx
      { nonce := nonce, To := hexToAddress d.To, value := 0
        gasLimit := g, gasPrice := gp, data := [0x30, 0x78] }
      ∈ TransactionRun env g d := by
  have hb : strToBytes d.callData = [0x30, 0x78] := by rw [hcd]; decide
  exact ⟨hb, hb ▸ buildTx_mem_trace env g d gp nonce h1 h2 h3⟩

/-- C10 witness: the theorem at a concrete environment and item whose
payload string is "0x". -/
theorem calldata_raw_bytes_witness :
    envAllOk.getFromDb = .ok false ∧ envAllOk.gasPrice = .ok 7 ∧
    envAllOk.pendingNonce = .ok 3 ∧ data0.callData = "0x" ∧
    (strToBytes data0.callData = [0x30, 0x78] ∧
     Action.buildTx
       { nonce := 3, To := hexToAddress data0.To, value := 0
         gasLimit := 100, gasPrice := 7, data := [0x30, 0x78] }
       ∈ TransactionRun envAllOk 100 data0) :=
  ⟨rfl, rfl, rfl, rfl, calldata_raw_bytes envAllOk 100 data0 7 3 rfl rfl rfl rfl⟩

/-- C5: a Collection whose candidate query returns the empty list emits
no SelectedItem, fails with the "no items" condition, and `BroadCast`
continues with the next Collection of the batch. -/
theorem empty_candidates_isolated
    (fetch : Collection → Except Unit (List ApiTransaction))
    (c : Collection) (rest : List Collection) (h : fetch c = .ok []) :
    ProcessData c [] = .error "no items provided" ∧
    BroadCastRun fetch (c :: rest) =
      BEvent.logMsg "Error processing transaction data" ::
        BroadCastRun fetch rest ∧
    (∀ d : ProcessedData, BEvent.emit d ∈ BroadCastRun fetch (c :: rest) →
      BEvent.emit d ∈ BroadCastRun fetch rest) := by
  have he : BroadCastRun fetch (c :: rest) =
      BEvent.logMsg "Error processing transaction data" ::
        BroadCastRun fetch rest := by
    conv_lhs => rw [BroadCastRun]
    rw [h]
    rfl
  refine ⟨rfl, he, fun d hd => ?_⟩
  rw [he] at hd
  simpa using hd

/-- C5 witness: the theorem at a concrete batch whose first Collection
has no candidates. -/
theorem empty_candidates_isolated_witness :
    (fun _ : Collection => (.ok [] : Except Unit (List ApiTransaction))) col0
        = .ok [] ∧
    (ProcessData col0 [] = .error "no items provided" ∧
     BroadCastRun (fun _ => .ok []) (col0 :: [col0]) =
       BEvent.logMsg "Error processing transaction data" ::
         BroadCastRun (fun _ => .ok []) [col0] ∧
     (∀ d : ProcessedData,
       BEvent.emit d ∈ BroadCastRun (fun _ => .ok []) (col0 :: [col0]) →
       BEvent.emit d ∈ BroadCastRun (fun _ => .ok []) [col0])) :=
  ⟨rfl, empty_candidates_isolated (fun _ => .ok []) col0 [col0] rfl⟩

/-- When every candidate parses to exactly the accumulator value, the
strict `<` update never fires and the scan returns the accumulator. -/
theorem scanLoop_no_update (txs : List ApiTransaction) (mt : ApiTransaction)
    (mn : Int) (hall : ∀ tx ∈ txs, Atoi tx.nftCount = some mn) :
    scanLoop txs mt mn = .ok (mt, mn) := by
  induction txs with
  | nil => rfl
  | cons t rest ih =>
    have ht := hall t (by simp)
    rw [scanLoop, ht]
    simp only [lt_irrefl, if_false]
    exact ih fun tx h => hall tx (by simp [h])

/-- C9: a non-empty candidate list in which every `nftCount` parses to
exactly the sentinel `int(^uint(0) >> 1)` selects no candidate: the scan
returns the zero-value candidate, whose empty `nftCount` string is then
reparsed and fails, so `ProcessData` returns the "invalid NFT count"
error although every input candidate parsed successfully. -/
theorem all_max_candidates_rejected (c : Collection)
    (txs : List ApiTransaction) (hne : txs ≠ [])
    (hall : ∀ tx ∈ txs, Atoi tx.nftCount = some maxIntGo) :
    scanLoop txs zeroApiTransaction maxIntGo = .ok (zeroApiTransaction, maxIntGo) ∧
    Atoi zeroApiTransaction.nftCount = none ∧
    ProcessData c txs = .error "invalid NFT count" := by
  have hs := scanLoop_no_update txs zeroApiTransaction maxIntGo hall
  refine ⟨hs, rfl, ?_⟩
  unfold ProcessData
  rw [if_neg fun h0 => hne (List.length_eq_zero.mp h0), hs]
  rfl

/-- C9 witness: two candidates, both parsing to `2^63 - 1`. -/
theorem all_max_candidates_rejected_witness :
    [txMax, txMax2] ≠ ([] : List ApiTransaction) ∧
    (∀ tx ∈ [txMax, txMax2], Atoi tx.nftCount = some maxIntGo) ∧
    (scanLoop [txMax, txMax2] zeroApiTransaction maxIntGo =
        .ok (zeroApiTransaction, maxIntGo) ∧
     Atoi zeroApiTransaction.nftCount = none ∧
     ProcessData col0 [txMax, txMax2] = .error "invalid NFT count") :=
  ⟨by decide, by decide,
    all_max_candidates_rejected col0 [txMax, txMax2] (by decide) (by decide)⟩

/-- The count `pick` ends with is the `min`-fold of the pair counts over
the accumulator count. -/
theorem pick_snd (ps : List (ApiTransaction × Int)) (acc : ApiTransaction × Int) :
    (pick ps acc).2 = (ps.map Prod.snd).foldl min acc.2 := by
  induction ps generalizing acc with
  | nil => rfl
  | cons p rest ih =>
    rw [pick]
    by_cases h : p.2 < acc.2
    · rw [if_pos h, ih, List.map_cons, List.foldl_cons, min_eq_right h.le]
    · rw [if_neg h, ih, List.map_cons, List.foldl_cons,
        min_eq_left (le_of_not_lt h)]

/-- Complete case analysis of `pick`: either no pair beats the
accumulator and the accumulator survives, or the result is the first pair
achieving the post-scan minimum — pairs before it are strictly larger,
pairs from it on are at least it. -/
theorem pick_cases (ps : List (ApiTransaction × Int)) (acc : ApiTransaction × Int) :
    (pick ps acc = acc ∧ ∀ p ∈ ps, acc.2 ≤ p.2) ∨
    (∃ i, ∃ hi : i < ps.length,
      pick ps acc = ps[i] ∧ ps[i].2 < acc.2 ∧
      (∀ j, ∀ hj : j < ps.length, j < i → ps[i].2 < ps[j].2) ∧
      (∀ j, ∀ hj : j < ps.length, i ≤ j → ps[i].2 ≤ ps[j].2)) := by
  induction ps generalizing acc with
  | nil => exact .inl ⟨rfl, by simp⟩
  | cons p rest ih =>
    by_cases h : p.2 < acc.2
    · have hp : pick (p :: rest) acc = pick rest p := by rw [pick, if_pos h]
      rcases ih p with ⟨heq, hall⟩ | ⟨i, hi, heq, hlt, hbef, haft⟩
      · refine .inr ⟨0, by simp, ?_, by simpa using h, ?_, ?_⟩
        · rw [hp, heq]; rfl
        · intro j hj hj0; omega
        · intro j hj _
          cases j with
          | zero => simp
          | succ k =>
            simp only [List.getElem_cons_succ, List.getElem_cons_zero]
            exact hall _ (List.getElem_mem _)
      · refine .inr ⟨i + 1, by simpa using hi, ?_, ?_, ?_, ?_⟩
        · rw [hp, heq]; simp
        · simp only [List.getElem_cons_succ]; exact hlt.trans h
        · intro j hj hji
          cases j with
          | zero =>
            simp only [List.getElem_cons_succ, List.getElem_cons_zero]
            exact hlt
          | succ k =>
            simp only [List.getElem_cons_succ]
            exact hbef k (by simp only [List.length_cons] at hj; omega) (by omega)
        · intro j hj hij
          cases j with
          | zero => omega
          | succ k =>
            simp only [List.getElem_cons_succ]
            exact haft k (by simp only [List.length_cons] at hj; omega) (by omega)
    · have hp : pick (p :: rest) acc = pick rest acc := by rw [pick, if_neg h]
      have hpa : acc.2 ≤ p.2 := le_of_not_lt h
      rcases ih acc with ⟨heq, hall⟩ | ⟨i, hi, heq, hlt, hbef, haft⟩
      · refine .inl ⟨hp.trans heq, ?_⟩
        intro q hq
        rcases List.mem_cons.mp hq with rfl | hq2
        · exact hpa
        · exact hall q hq2
      · refine .inr ⟨i + 1, by simpa using hi, ?_, ?_, ?_, ?_⟩
        · rw [hp, heq]; simp
        · simp only [List.getElem_cons_succ]; exact hlt
        · intro j hj hji
          cases j with
          | zero =>
            simp only [List.getElem_cons_succ, List.getElem_cons_zero]
            exact hlt.trans_le hpa
          | succ k =>
            simp only [List.getElem_cons_succ]
            exact hbef k (by simp only [List.length_cons] at hj; omega) (by omega)
        · intro j hj hij
          cases j with
          | zero => omega
          | succ k =>
            simp only [List.getElem_cons_succ]
            exact haft k (by simp only [List.length_cons] at hj; omega) (by omega)

/-- On a fully parsing candidate list, the Go scan agrees with `pick` on
the zipped (candidate, parsed count) pairs. -/
theorem scanLoop_eq_pick (txs : List ApiTransaction) (vals : List Int)
    (mt : ApiTransaction) (mn : Int)
    (hparse : txs.map (fun t => Atoi t.nftCount) = vals.map some) :
    scanLoop txs mt mn = .ok (pick (txs.zip vals) (mt, mn)) := by
  induction txs generalizing vals mt mn with
  | nil =>
    cases vals with
    | nil => rfl
    | cons v vs => simp at hparse
  | cons t rest ih =>
    cases vals with
    | nil => simp at hparse
    | cons v vs =>
      simp only [List.map_cons, List.cons.injEq] at hparse
      obtain ⟨h1, h2⟩ := hparse
      rw [scanLoop, h1]
      simp only [List.zip_cons_cons, pick]
      by_cases hv : v < mn
      · rw [if_pos hv, if_pos (show (t, v).2 < (mt, mn).2 from hv), ih vs t v h2]
        rfl
      · rw [if_neg hv, if_neg (show ¬(t, v).2 < (mt, mn).2 from hv), ih vs mt mn h2]
        rfl

/-- Pointwise reading of a whole-list parse equation. -/
theorem parse_getElem (txs : List ApiTransaction) (vals : List Int)
    (hparse : txs.map (fun t => Atoi t.nftCount) = vals.map some)
    (i : Nat) (hi : i < txs.length) (hv : i < vals.length) :
    Atoi (txs[i]).nftCount = some (vals[i]) := by
  have h3 := congrArg (fun l => l[i]?) hparse
  simp only [List.getElem?_map] at h3
  rw [List.getElem?_eq_getElem hi, List.getElem?_eq_getElem hv] at h3
  simpa using h3

/-- C2 counterexample: a non-empty candidate list whose every `nftCount`
parses as an integer on which `ProcessData` emits no SelectedItem at all —
the single candidate parses to the sentinel value `2^63 - 1`, the strict
`<` never fires, and the run ends in an "invalid NFT count" error, so the
claim "ProcessData emits a SelectedItem whose unitCount equals the
minimum parsed unitCount" fails as stated. -/
theorem processData_min_counterexample :
    Atoi txMax.nftCount = some maxIntGo ∧
    ProcessData col0 [txMax] = .error "invalid NFT count" ∧
    ∀ d, ProcessData col0 [txMax] ≠ .ok d := by
  refine ⟨by decide, rfl, fun d h => ?_⟩
  rw [show ProcessData col0 [txMax] = .error "invalid NFT count" from rfl] at h
  exact Except.noConfusion h

/-- C2 amended: for a non-empty candidate list whose `nftCount` fields
all parse as integers and in which at least one parsed value lies
strictly below the sentinel `2^63 - 1`, `ProcessData` emits a
SelectedItem whose quantity is the minimum parsed count, taking
destination, payload and value from the first candidate attaining that
minimum (stable scan, no secondary key). -/
theorem processData_min_first (c : Collection) (txs : List ApiTransaction)
    (vals : List Int)
    (hparse : txs.map (fun t => Atoi t.nftCount) = vals.map some)
    (hne : txs ≠ [])
    (hlow : vals.foldl min maxIntGo < maxIntGo) :
    ∃ d, ProcessData c txs = .ok d ∧
      d.name = c.name ∧ d.contract = c.contract ∧
      d.quantity = vals.foldl min maxIntGo ∧
      (∀ v ∈ vals, d.quantity ≤ v) ∧
      (∃ i, ∃ hi : i < txs.length, ∃ hv : i < vals.length,
        vals[i] = d.quantity ∧
        (∀ j, ∀ hj : j < vals.length, j < i → d.quantity < vals[j]) ∧
        d.To = (txs[i]).To ∧ d.callData = (txs[i]).callData ∧
        d.ethValue = (txs[i]).ethValue) := by
  have hlen : txs.length = vals.length := by
    simpa using congrArg List.length hparse
  have hzlen : (txs.zip vals).length = txs.length := by
    rw [List.length_zip txs vals, hlen, min_self]
  have hsnd : (txs.zip vals).map Prod.snd = vals :=
    List.map_snd_zip txs vals (le_of_eq hlen.symm)
  have hscan := scanLoop_eq_pick txs vals zeroApiTransaction maxIntGo hparse
  have hpsnd := pick_snd (txs.zip vals) (zeroApiTransaction, maxIntGo)
  rw [hsnd] at hpsnd
  rcases pick_cases (txs.zip vals) (zeroApiTransaction, maxIntGo) with
    ⟨heq, _⟩ | ⟨i, hip, heq, hlt, hbef, haft⟩
  · exfalso
    rw [heq] at hpsnd
    rw [← hpsnd] at hlow
    exact lt_irrefl _ hlow
  · have hi : i < txs.length := hzlen ▸ hip
    have hv : i < vals.length := hlen ▸ hi
    have hpair : (txs.zip vals)[i] = (txs[i], vals[i]) := List.getElem_zip
    have hAtoi : Atoi (txs[i]).nftCount = some (vals[i]) :=
      parse_getElem txs vals hparse i hi hv
    have hq : vals[i] = vals.foldl min maxIntGo := by
      rw [← hpsnd, heq, hpair]
    have hrun : ProcessData c txs = .ok
        { name := c.name, contract := c.contract, quantity := vals[i]
          ethValue := (txs[i]).ethValue, To := (txs[i]).To
          callData := (txs[i]).callData, hash := "" } := by
      unfold ProcessData
      rw [if_neg fun h0 => hne (List.length_eq_zero.mp h0), hscan, heq, hpair]
      simp [hAtoi]
    refine ⟨_, hrun, rfl, rfl, hq, ?_, i, hi, hv, hq.symm ▸ rfl, ?_, rfl, rfl, rfl⟩
    · intro v hvmem
      rcases List.mem_iff_getElem.mp hvmem with ⟨j, hj, rfl⟩
      have hjp : j < (txs.zip vals).length := by omega
      have hjpair : (txs.zip vals)[j] = (txs[j], vals[j]) := List.getElem_zip
      rcases lt_or_le j i with hji | hij
      · have := hbef j hjp hji
        rw [hpair, hjpair] at this
        simp only at this
        simp only [hq]
        exact le_of_lt (hq ▸ this)
      · have := haft j hjp hij
        rw [hpair, hjpair] at this
        simp only at this
        exact hq ▸ this
    · intro j hj hji
      have hjp : j < (txs.zip vals).length := by omega
      have hjpair : (txs.zip vals)[j] = (txs[j], vals[j]) := List.getElem_zip
      have := hbef j hjp hji
      rw [hpair, hjpair] at this
      simp only at this
      exact hq ▸ this

/-- C2 witness: candidates with counts [3, 1, 1]; the minimum 1 is
attained first at index 1, whose destination/payload are taken. -/
theorem processData_min_first_witness :
    [txThree, txOne, txOneBis].map (fun t => Atoi t.nftCount) =
        ([3, 1, 1] : List Int).map some ∧
    [txThree, txOne, txOneBis] ≠ ([] : List ApiTransaction) ∧
    ([3, 1, 1] : List Int).foldl min maxIntGo < maxIntGo ∧
    (∃ d, ProcessData col0 [txThree, txOne, txOneBis] = .ok d ∧
      d.name = col0.name ∧ d.contract = col0.contract ∧
      d.quantity = ([3, 1, 1] : List Int).foldl min maxIntGo ∧
      (∀ v ∈ ([3, 1, 1] : List Int), d.quantity ≤ v) ∧
      (∃ i, ∃ hi : i < ([txThree, txOne, txOneBis] : List ApiTransaction).length,
        ∃ hv : i < ([3, 1, 1] : List Int).length,
        ([3, 1, 1] : List Int)[i] = d.quantity ∧
        (∀ j, ∀ hj : j < ([3, 1, 1] : List Int).length, j < i →
          d.quantity < ([3, 1, 1] : List Int)[j]) ∧
        d.To = (([txThree, txOne, txOneBis] : List ApiTransaction)[i]).To ∧
        d.callData = (([txThree, txOne, txOneBis] : List ApiTransaction)[i]).callData ∧
        d.ethValue = (([txThree, txOne, txOneBis] : List ApiTransaction)[i]).ethValue)) :=
  ⟨by decide, by decide, by decide,
    processData_min_first col0 [txThree, txOne, txOneBis] [3, 1, 1]
      (by decide) (by decide) (by decide)⟩

/-- No run of `helpers.Transaction` ever writes an ErrorRecord: every
failure branch of the Go function is a bare `return`. -/
theorem transactionRun_no_errorRecord (env : SubmitEnv) (g : Nat)
    (d : ProcessedData) (k : String) :
    Action.errorRecord k ∉ TransactionRun env g d := by
  unfold TransactionRun
  repeat' split
  all_goals try simp
  all_goals
    rename_i x1 h1 x2 gp h2 x3 nonce h3
  all_goals
    cases hs : env.send
        { nonce := nonce, To := hexToAddress d.To, value := 0
          gasLimit := g, gasPrice := gp, data := strToBytes d.callData } <;>
      simp [hs]

/-- C3 counterexample: after a dedup miss, the gas estimate fails; the
trace is only the lookup and the estimate call — the item is abandoned
with no step-tagged ErrorRecord (or any error log) written, so the
claim's "logged to the ErrorRecord channel with a kind tagged per step"
fails as stated. -/
theorem submission_failure_not_logged :
    envEstimateErr.getFromDb = .ok false ∧
    envEstimateErr.gasPrice = .error () ∧
    TransactionRun envEstimateErr 100 data0 =
      [Action.dedupCall "0xc0", Action.estimateCall] ∧
    ∀ k, Action.errorRecord k ∉ TransactionRun envEstimateErr 100 data0 := by
  refine ⟨rfl, rfl, rfl, fun k => ?_⟩
  rw [show TransactionRun envEstimateErr 100 data0 =
      [Action.dedupCall "0xc0", Action.estimateCall] from rfl]
  simp

/-- C3 amended: a failure at any of the Submission steps 2-5 abandons the
item silently — no ErrorRecord is written for it — and the Minter loop
still processes every received SelectedItem independently, never
aborting: the i-th loop iteration is exactly the i-th item's own
`Transaction` run, whatever happened to the other items. -/
theorem submission_failure_silent_isolation
    (envs : ProcessedData → SubmitEnv) (g : Nat) (items : List ProcessedData)
    (i : Nat) (hi : i < items.length)
    (hmi : i < (MinterRun envs g items).length) :
    (MinterRun envs g items)[i] =
      (items[i], TransactionRun (envs (items[i])) g (items[i])) ∧
    ∀ k, Action.errorRecord k ∉ ((MinterRun envs g items)[i]).2 := by
  have hget : (MinterRun envs g items)[i] =
      (items[i], TransactionRun (envs (items[i])) g (items[i])) := by
    unfold MinterRun
    simp
  exact ⟨hget, fun k => by
    rw [hget]
    exact transactionRun_no_errorRecord _ _ _ k⟩

/-- C3 witness: a two-item batch where the first item's gas estimate
fails; the second item's iteration is untouched and no error record
exists in its trace. -/
theorem submission_failure_silent_isolation_witness :
    1 < ([data0, data1] : List ProcessedData).length ∧
    1 < (MinterRun envsMix 100 [data0, data1]).length ∧
    ((MinterRun envsMix 100 [data0, data1])[1] =
      (data1, TransactionRun (envsMix data1) 100 data1) ∧
     ∀ k, Action.errorRecord k ∉ ((MinterRun envsMix 100 [data0, data1])[1]).2) :=
  ⟨by decide, by decide,
    submission_failure_silent_isolation envsMix 100 [data0, data1] 1
      (by decide) (by decide)⟩

/-- Any candidate whose `nftCount` fails to parse makes the selection scan
return the "invalid NFT count" error, wherever it sits in the list. -/
theorem scanLoop_err_of_bad (tx : ApiTransaction)
    (hbad : Atoi tx.nftCount = none) :
    ∀ (txs : List ApiTransaction), tx ∈ txs → ∀ mt mn,
      scanLoop txs mt mn = .error "invalid NFT count" := by
  intro txs
  induction txs with
  | nil => intro h; cases h
  | cons t rest ih =>
    intro htx mt mn
    rw [scanLoop]
    cases hA : Atoi t.nftCount with
    | none => rfl
    | some n =>
      rcases List.mem_cons.mp htx with rfl | hmem
      · rw [hbad] at hA; cases hA
      · change (if n < mn then scanLoop rest t n else scanLoop rest mt mn) = _
        by_cases hlt : n < mn
        · rw [if_pos hlt]; exact ih hmem t n
        · rw [if_neg hlt]; exact ih hmem mt mn

/-- C4 counterexample: in the list [txOne, txBad] the chosen minimum is
txOne, whose `nftCount` "1" parses, while the non-minimum candidate
txBad does not parse — yet `ProcessData` fails the whole Collection, so
the claim "a candidate whose unitCount fails to parse but is not the
chosen minimum does not cause ProcessData to fail" is false as stated. -/
theorem nonmin_parse_failure_fails :
    Atoi txOne.nftCount = some 1 ∧
    Atoi txBad.nftCount = none ∧
    ProcessData col0 [txOne, txBad] = .error "invalid NFT count" ∧
    ∀ d, ProcessData col0 [txOne, txBad] ≠ .ok d := by
  refine ⟨by decide, by decide, rfl, fun d h => ?_⟩
  rw [show ProcessData col0 [txOne, txBad] = .error "invalid NFT count"
      from rfl] at h
  exact Except.noConfusion h

/-- C4 amended: the scan parses every candidate's `nftCount` in input
order, and a parse failure on any candidate — chosen minimum or not — is
a hard "invalid NFT count" error for that Collection. -/
theorem any_parse_failure_fails_collection (c : Collection)
    (txs : List ApiTransaction) (tx : ApiTransaction)
    (htx : tx ∈ txs) (hbad : Atoi tx.nftCount = none) :
    ProcessData c txs = .error "invalid NFT count" := by
  have hlen : ¬txs.length = 0 := by
    cases txs with
    | nil => cases htx
    | cons a l => simp
  unfold ProcessData
  rw [if_neg hlen, scanLoop_err_of_bad tx hbad txs htx zeroApiTransaction maxIntGo]

/-- C4 amended witness: the theorem at the concrete [txOne, txBad] list. -/
theorem any_parse_failure_fails_collection_witness :
    txBad ∈ ([txOne, txBad] : List ApiTransaction) ∧
    Atoi txBad.nftCount = none ∧
    ProcessData col0 [txOne, txBad] = .error "invalid NFT count" :=
  ⟨by decide, by decide,
    any_parse_failure_fails_collection col0 [txOne, txBad] txBad
      (by decide) (by decide)⟩

end NTFScout
